import Mathlib

/-
Verification of the CommitFit skill extraction / matching engine
(src/backend/main.py) against its natural-language specification.

The Python source is shallowly embedded below:
* strings are Lean `String` (a wrapper around `List Char`); the source only
  ever manipulates ASCII, so `Char.toLower`, `Char.isAlphanum` and the ASCII
  whitespace predicate model Python's `str.lower`, `\w` and `str.strip`;
* Python floats are modelled as `ℚ`, with `round(x, 2)` modelled as exact
  round-half-to-even on rationals (Python rounds IEEE doubles half-to-even;
  on the integer ratios arising here the two agree);
* the network collaborator of `analyze_repo_languages` is modelled as an
  explicit function from repositories to fetch outcomes;
* a Python exception is modelled with `Except`.

Two genuine defects of the source are reflected faithfully:
1. In `extract_skills_from_text` (main.py lines 185-221) the statements
   `tech_keywords = [...]`, `found_skills = []` and `text_lower = text.lower()`
   are indented into the body of `if not text or not text.strip():`, after its
   `return []`.  They therefore never execute: for blank text the function
   returns `[]`, and for any other text the first use of `text_lower`
   (line 230, inside the generator expression over `cpp_patterns`) raises
   `NameError`.  The keyword scan of lines 189-272 is dead code; it is
   embedded separately as `extract_skills_scan` so that the intended
   behaviour can still be examined.  (The module around it even fails to
   import: line 359 dedents out of a `try:` block with no `except`.)
2. In `analyze_repo_languages` (lines 139-159) the `continue` executed when a
   repository's language fetch raises skips not only the language
   accumulation but also the `total_stars`/`total_forks`/`total_size`
   accumulation for that repository.
-/

/-- A Python exception escaping a core function. -/
inductive PyError where
  | nameError (var : String)
  deriving Repr, DecidableEq

/-- The whitespace characters removed by Python's `str.strip()`
(restricted to ASCII, which is all the source ever feeds it). -/
def isPySpace (c : Char) : Bool :=
  c = ' ' || c = '\t' || c = '\n' || c = '\r' || c = '\x0b' || c = '\x0c'

/-- `str.strip()` on a list of characters. -/
def pyStripList (l : List Char) : List Char :=
  ((l.dropWhile isPySpace).reverse.dropWhile isPySpace).reverse

/-- Python `str.strip()`. -/
def pyStrip (s : String) : String :=
  String.mk (pyStripList s.data)

/-- Python `str.lower()` (the source only lowercases ASCII letters). -/
def pyLower (s : String) : String :=
  String.mk (s.data.map Char.toLower)

/-- The normalization pipeline the scorer and the report endpoint apply to a
skill list:
`[skill.lower().strip() for skill in skills if skill]` followed by
`[s for s in ... if s]` (main.py lines 289-294 and 472-477). -/
def pyNormList (skills : List String) : List String :=
  (((skills.filter (fun s => s ≠ "")).map (fun s => pyStrip (pyLower s))).filter
    (fun s => s ≠ ""))

/-- Round-half-to-even of `a / b` over ℕ (used to evaluate and reason about
`roundHalfEven` on nonnegative rationals without ℚ kernel computation). -/
def rheDivNat (a b : ℕ) : ℕ :=
  if 2 * (a % b) < b then a / b
  else if b < 2 * (a % b) then a / b + 1
  else if a / b % 2 = 0 then a / b else a / b + 1

/-- Round-half-to-even to the nearest integer, as Python's `round` does. -/
def roundHalfEven (q : ℚ) : ℤ :=
  if Int.fract q = 1 / 2 then (if Even ⌊q⌋ then ⌊q⌋ else ⌊q⌋ + 1) else round q

/-- Python's `round(x, 2)`. -/
def round2 (q : ℚ) : ℚ :=
  (roundHalfEven (q * 100) : ℚ) / 100

/-- `calculate_match_score` (main.py lines 274-300):

```
if not job_skills: return 0.0
if not candidate_skills: return 0.0
candidate_skills_lower = [skill.lower().strip() for skill in candidate_skills if skill]
job_skills_lower = [skill.lower().strip() for skill in job_skills if skill]
candidate_skills_lower = [s for s in candidate_skills_lower if s]
job_skills_lower = [s for s in job_skills_lower if s]
if not job_skills_lower: return 0.0
matching = set(candidate_skills_lower) & set(job_skills_lower)
return round(len(matching) / len(job_skills_lower) * 100, 2)
```

`len(set(xs))` is `xs.toFinset.card`.  Note the denominator is the length of
the normalized job *list* (duplicates counted), not the cardinality of its
set. -/
def calculate_match_score (candidate_skills job_skills : List String) : ℚ :=
  if job_skills = [] then 0
  else if candidate_skills = [] then 0
  else
    let candidate_skills_lower := pyNormList candidate_skills
    let job_skills_lower := pyNormList job_skills
    if job_skills_lower = [] then 0
    else
      round2 (((candidate_skills_lower.toFinset ∩ job_skills_lower.toFinset).card : ℚ)
        / (job_skills_lower.length : ℚ) * 100)

/-- The score formula exactly as claim C2 words it: both inputs normalized to
*sets*, `0` when either set is empty, and otherwise
`|candidate ∩ job| / |job| * 100` with the *set* cardinality of the job
skills as denominator, rounded to two decimals.  (Comparison definition for
the refinement claim C2; `calculate_match_score` above is the source.) -/
def scoreClaimSpec (candidate_skills job_skills : List String) : ℚ :=
  let cset := (pyNormList candidate_skills).toFinset
  let jset := (pyNormList job_skills).toFinset
  if jset = ∅ ∨ cset = ∅ then 0
  else round2 (((cset ∩ jset).card : ℚ) / (jset.card : ℚ) * 100)

/-- The amended C2 formula: identical to `scoreClaimSpec` except that the
denominator is the length of the normalized job *list*, duplicates counted
(which is what the source divides by). -/
def scoreAmendedSpec (candidate_skills job_skills : List String) : ℚ :=
  let cset := (pyNormList candidate_skills).toFinset
  let jset := (pyNormList job_skills).toFinset
  if jset = ∅ ∨ cset = ∅ then 0
  else round2 (((cset ∩ jset).card : ℚ) / ((pyNormList job_skills).length : ℚ) * 100)

/- ### The extractor (main.py lines 176-272) -/

/-- `extract_skills_from_text` as the source actually behaves (defect 1 in
the header comment): blank input returns `[]` from inside the `if` whose body
also (unreachably) holds the `tech_keywords`/`found_skills`/`text_lower`
assignments; any other input reaches line 230 and raises `NameError` on
`text_lower`. -/
def extract_skills_from_text (text : String) : Except PyError (List String) :=
  if text = "" ∨ pyStrip text = "" then Except.ok []
  else Except.error (PyError.nameError "text_lower")

/-- Python's `\w` (ASCII fragment): letters, digits, underscore. -/
def isWordChar (c : Char) : Bool :=
  c.isAlphanum || c = '_'

/-- Does `kw` occur in `text` starting at index `i`? -/
def matchesAt (kw text : List Char) (i : ℕ) : Bool :=
  decide ((text.drop i).take kw.length = kw)

/-- No word character immediately before index `i` (start of text counts). -/
def boundaryBefore (text : List Char) (i : ℕ) : Bool :=
  match i with
  | 0 => true
  | j + 1 => !isWordChar (text.getD j ' ')

/-- No word character at index `i` (end of text counts). -/
def boundaryAfter (text : List Char) (i : ℕ) : Bool :=
  !isWordChar (text.getD i ' ')

/-- One regex search of the dead keyword scan: an occurrence of `kw` that is
neither preceded nor followed by a word character.  For the ordinary
keywords (which begin and end with word characters) this is exactly
`re.search(r'\b' + re.escape(kw) + r'\b', text)`; for `c++`/`c#` it is
exactly the `(?<!\w)...(?!\w)` patterns of lines 225-237. -/
def boundedOccurs (kw text : List Char) : Bool :=
  (List.range (text.length + 1)).any
    (fun i => matchesAt kw text i && boundaryBefore text i
      && boundaryAfter text (i + kw.length))

/-- The `tech_keywords` table (main.py lines 189-218), in source order. -/
def tech_keywords : List String :=
  ["python", "javascript", "java", "c++", "cpp", "cplusplus", "c#", "csharp",
   "typescript", "go", "golang", "rust", "swift", "kotlin", "scala", "ruby",
   "php", "r", "matlab", "perl", "lua", "dart", "objective-c", "objectivec",
   "react", "angular", "vue", "vue.js", "svelte", "next.js", "nextjs",
   "nuxt", "ember", "backbone", "jquery",
   "node.js", "nodejs", "express", "django", "flask", "fastapi", "spring",
   "spring boot", "laravel", "rails", "ruby on rails", "asp.net", "aspnet",
   "nest.js", "nestjs", "koa", "hapi",
   "mongodb", "postgresql", "postgres", "mysql", "sqlite", "redis", "cassandra",
   "elasticsearch", "dynamodb", "oracle", "sql server", "mariadb", "neo4j",
   "docker", "kubernetes", "k8s", "aws", "azure", "gcp", "google cloud",
   "terraform", "ansible", "jenkins", "github actions", "gitlab ci",
   "ci/cd", "cicd", "devops",
   "git", "github", "gitlab", "bitbucket", "jira", "confluence",
   "rest api", "graphql", "grpc", "microservices", "agile", "scrum",
   "tensorflow", "pytorch", "keras", "pandas", "numpy", "scikit-learn",
   "scikit learn", "machine learning", "ml", "ai", "artificial intelligence",
   "data science", "deep learning", "neural networks", "opencv",
   "html", "css", "sass", "scss", "less", "webpack", "babel", "es6",
   "redux", "mobx", "zustand"]

/-- The keywords the main loop skips (handled by the regex special cases). -/
def skippedKeywords : List String :=
  ["c++", "cpp", "cplusplus", "c#", "csharp"]

/-- The synonym-folding `elif` chain of main.py lines 251-270. -/
def canonicalize (keyword : String) : String :=
  if keyword = "cpp" ∨ keyword = "cplusplus" then "c++"
  else if keyword = "csharp" then "c#"
  else if keyword = "nodejs" ∨ keyword = "node.js" then "node.js"
  else if keyword = "nextjs" ∨ keyword = "next.js" then "next.js"
  else if keyword = "nestjs" ∨ keyword = "nest.js" then "nest.js"
  else if keyword = "vue.js" ∨ keyword = "vue" then "vue"
  else if keyword = "postgres" ∨ keyword = "postgresql" then "postgresql"
  else if keyword = "golang" ∨ keyword = "go" then "go"
  else if keyword = "scikit learn" ∨ keyword = "scikit-learn" then "scikit-learn"
  else keyword

/-- The keyword scan of main.py lines 220-272 as it would execute were it
reachable (it is dead code, see the header comment): the `c++`/`c#` regex
special cases, then every other keyword tested with word boundaries and
canonicalized.  Python collects the hits in a list and returns
`list(set(found_skills))`; the resulting *set* is modelled by deduplicating,
and claims about it are stated via membership. -/
def extract_skills_scan (text : String) : List String :=
  let text_lower := (pyLower text).data
  let cpp_found :=
    if boundedOccurs "c++".data text_lower || boundedOccurs "cpp".data text_lower
        || boundedOccurs "cplusplus".data text_lower then ["c++"] else []
  let csharp_found :=
    if boundedOccurs "c#".data text_lower || boundedOccurs "csharp".data text_lower
      then ["c#"] else []
  let keyword_found :=
    (tech_keywords.filter
      (fun kw => !skippedKeywords.contains kw && boundedOccurs kw.data text_lower)).map
      canonicalize
  (cpp_found ++ csharp_found ++ keyword_found).dedup

/- ### The match report (main.py lines 472-484) -/

/-- The boolean `≤` on strings (lexicographic by code point, as Python's
string comparison). -/
def strLeB (a b : String) : Bool :=
  decide (a ≤ b)

/-- `sorted(...)` on strings. -/
def sortStrings (l : List String) : List String :=
  l.mergeSort strLeB

/-- `matching_skills` of `get_match_report` (main.py lines 472-483):
normalize both lists, `list(set(candidate) & set(job))`, sort. -/
def matching_skills (candidate_skills job_skills : List String) : List String :=
  sortStrings
    (((pyNormList candidate_skills).filter
      (fun s => (pyNormList job_skills).contains s)).dedup)

/-- `missing_skills` of `get_match_report` (main.py lines 472-484):
normalize both lists, `list(set(job) - set(candidate))`, sort. -/
def missing_skills (candidate_skills job_skills : List String) : List String :=
  sortStrings
    (((pyNormList job_skills).filter
      (fun s => !(pyNormList candidate_skills).contains s)).dedup)

/- ### The aggregator (main.py lines 120-174) -/

/-- The fields of a GitHub repository record that
`analyze_repo_languages` reads. -/
structure Repo where
  languages_url : Option String
  stargazers_count : ℕ
  forks_count : ℕ
  size : ℕ
  deriving Repr, DecidableEq

/-- Outcome of `requests.get(repo['languages_url'])`: a response with a
status code and a language → byte-count dictionary (modelled as an
association list in insertion order), or a raised `RequestException`. -/
inductive FetchOutcome where
  | success (status : ℕ) (languages : List (String × ℕ))
  | failure
  deriving Repr, DecidableEq

/-- Python truthiness of `repo.get('languages_url')`. -/
def Repo.urlTruthy (r : Repo) : Bool :=
  match r.languages_url with
  | none => false
  | some s => s != ""

/-- `language_stats[lang] += w` on a `Counter` kept in insertion order. -/
def counterAdd : List (String × ℚ) → String → ℚ → List (String × ℚ)
  | [], lang, w => [(lang, w)]
  | (l, v) :: rest, lang, w =>
    if l = lang then (l, v + w) :: rest else (l, v) :: counterAdd rest lang w

/-- `language_stats[lang]` (a `Counter` yields `0` for an absent key). -/
def counterLookup (stats : List (String × ℚ)) (lang : String) : ℚ :=
  match stats.lookup lang with
  | some v => v
  | none => 0

/-- `total_bytes = sum(repo_languages.values())` (line 146). -/
def totalBytes (repo_languages : List (String × ℕ)) : ℕ :=
  (repo_languages.map (fun p => p.2)).sum

/-- Lines 146-152: accumulate one repository's language byte counts,
normalized to fractional shares when the repository's total bytes are
positive, raw otherwise. -/
def addRepoLanguages (stats : List (String × ℚ)) (repo_languages : List (String × ℕ)) :
    List (String × ℚ) :=
  repo_languages.foldl
    (fun st p =>
      counterAdd st p.1
        (if 0 < totalBytes repo_languages then
          (p.2 : ℚ) / (totalBytes repo_languages : ℚ)
        else (p.2 : ℚ)))
    stats

/-- The loop state of `analyze_repo_languages`. -/
structure AggState where
  language_stats : List (String × ℚ)
  total_stars : ℕ
  total_forks : ℕ
  total_size : ℕ
  deriving Repr, DecidableEq

/-- One iteration of the `for repo in repos` loop (lines 139-159).  When the
fetch raises, the `except ... continue` skips the rest of the body —
including the stars/forks/size accumulation (defect 2 in the header
comment). -/
def analyzeStep (fetch : Repo → FetchOutcome) (st : AggState) (repo : Repo) : AggState :=
  if repo.urlTruthy then
    match fetch repo with
    | FetchOutcome.failure => st
    | FetchOutcome.success status langs =>
      { language_stats :=
          if status = 200 then addRepoLanguages st.language_stats langs
          else st.language_stats
        total_stars := st.total_stars + repo.stargazers_count
        total_forks := st.total_forks + repo.forks_count
        total_size := st.total_size + repo.size }
  else
    { language_stats := st.language_stats
      total_stars := st.total_stars + repo.stargazers_count
      total_forks := st.total_forks + repo.forks_count
      total_size := st.total_size + repo.size }

/-- Stable insertion of a language entry into a weight-descending list:
the entry goes before the first list element whose weight is `≤` its own, so
an earlier-encountered entry stays ahead of later equal-weight ones. -/
def insertWeightDesc (p : String × ℚ) : List (String × ℚ) → List (String × ℚ)
  | [] => [p]
  | q :: rest => if q.2 ≤ p.2 then p :: q :: rest else q :: insertWeightDesc p rest

/-- Stable sort by descending weight (insertion sort). -/
def sortWeightDesc : List (String × ℚ) → List (String × ℚ)
  | [] => []
  | p :: rest => insertWeightDesc p (sortWeightDesc rest)

/-- `Counter.most_common(10)` (line 162): the ten largest-weight entries in
descending order, ties kept in first-encounter order (Python's
`heapq.nlargest` is stable: equivalent to a stable descending sort followed
by `[:10]`). -/
def most_common10 (stats : List (String × ℚ)) : List (String × ℚ) :=
  (sortWeightDesc stats).take 10

/-- The dictionary `analyze_repo_languages` returns (lines 167-174). -/
structure AnalyzeResult where
  languages : List (String × ℚ)
  total_stars : ℕ
  total_forks : ℕ
  total_size : ℕ
  repo_count : ℕ
  top_language : Option String
  deriving Repr, DecidableEq

/-- The accumulated (untruncated) language counter after the repository
loop. -/
def analyzeStats (fetch : Repo → FetchOutcome) (repos : List Repo) : List (String × ℚ) :=
  (repos.foldl (analyzeStep fetch) ⟨[], 0, 0, 0⟩).language_stats

/-- `analyze_repo_languages` (main.py lines 120-174), with the network
collaborator injected as `fetch`. -/
def analyze_repo_languages (fetch : Repo → FetchOutcome) (repos : List Repo) :
    AnalyzeResult :=
  let st := repos.foldl (analyzeStep fetch) ⟨[], 0, 0, 0⟩
  let sorted_languages := most_common10 st.language_stats
  { languages := sorted_languages
    total_stars := st.total_stars
    total_forks := st.total_forks
    total_size := st.total_size
    repo_count := repos.length
    top_language := sorted_languages.head?.map (fun p => p.1) }

/-- Does the loop iteration for `repo` hit the `except ... continue` path? -/
def Repo.fetchRaises (fetch : Repo → FetchOutcome) (r : Repo) : Bool :=
  r.urlTruthy && (fetch r == FetchOutcome.failure)

/- ### Concrete inputs used by counterexamples and witnesses -/

/-- Test repository: 1 star, 2 forks, size 3, fetch will succeed. -/
def exRepoA : Repo := ⟨some "https://api.github.com/repos/u/a/languages", 1, 2, 3⟩

/-- Test repository: 5 stars, 7 forks, size 9, fetch will raise. -/
def exRepoB : Repo := ⟨some "https://api.github.com/repos/u/b/languages", 5, 7, 9⟩

/-- Test repository: 2 stars, 1 fork, size 4, fetch will succeed. -/
def exRepoC : Repo := ⟨some "https://api.github.com/repos/u/c/languages", 2, 1, 4⟩

/-- A fetch collaborator that raises for `exRepoB` only. -/
def exFetch : Repo → FetchOutcome := fun r =>
  if r = exRepoB then FetchOutcome.failure
  else FetchOutcome.success 200 [("Python", 10)]

/-- Fifteen distinct languages with strictly decreasing byte counts
(total 120 bytes). -/
def exLangs15 : List (String × ℕ) :=
  [("l01", 15), ("l02", 14), ("l03", 13), ("l04", 12), ("l05", 11), ("l06", 10),
   ("l07", 9), ("l08", 8), ("l09", 7), ("l10", 6), ("l11", 5), ("l12", 4),
   ("l13", 3), ("l14", 2), ("l15", 1)]

/-- A repository whose language fetch returns `exLangs15`. -/
def exRepo15 : Repo := ⟨some "https://api.github.com/repos/u/big/languages", 0, 0, 0⟩

/-- A fetch collaborator returning the fifteen-language breakdown. -/
def exFetch15 : Repo → FetchOutcome := fun _ => FetchOutcome.success 200 exLangs15

/- ### Helper lemmas -/

theorem roundHalfEven_natCast_div (a b : ℕ) (hb : 0 < b) :
    roundHalfEven ((a : ℚ) / b) = rheDivNat a b := by
  have hb0 : (b : ℚ) ≠ 0 := Nat.cast_ne_zero.mpr hb.ne'
  have hfloor : ⌊(a : ℚ) / b⌋ = ((a / b : ℕ) : ℤ) := by
    rw [Rat.floor_natCast_div_natCast]; push_cast; rfl
  have hmod : a % b < b := Nat.mod_lt _ hb
  have hsplit : (a : ℚ) = b * ((a / b : ℕ) : ℚ) + ((a % b : ℕ) : ℚ) := by
    exact_mod_cast (Nat.div_add_mod a b).symm
  have hfract : Int.fract ((a : ℚ) / b) = ((a % b : ℕ) : ℚ) / b := by
    rw [Int.fract, hfloor, Int.cast_natCast]
    rw [eq_div_iff hb0, sub_mul, div_mul_cancel₀ _ hb0]
    linarith [hsplit]
  have htie : Int.fract ((a : ℚ) / b) = 1 / 2 ↔ 2 * (a % b) = b := by
    rw [hfract, div_eq_div_iff hb0 (by norm_num : (2 : ℚ) ≠ 0)]
    constructor
    · intro h
      have h' : ((2 * (a % b) : ℕ) : ℚ) = ((b : ℕ) : ℚ) := by push_cast; linarith
      exact_mod_cast h'
    · intro h
      have h' : ((2 * (a % b) : ℕ) : ℚ) = ((b : ℕ) : ℚ) := by
        exact_mod_cast congrArg Nat.cast h
      push_cast at h'; linarith
  have hround : round ((a : ℚ) / b) = (((2 * a + b) / (2 * b) : ℕ) : ℤ) := by
    rw [round_eq]
    have heq : (a : ℚ) / b + 1 / 2 = ((2 * a + b : ℕ) : ℚ) / ((2 * b : ℕ) : ℚ) := by
      push_cast; field_simp; ring
    rw [heq, Rat.floor_natCast_div_natCast]; push_cast; rfl
  have hsplit2 : 2 * a + b = 2 * (b * (a / b)) + (2 * (a % b) + b) := by
    have h := Nat.div_add_mod a b; omega
  rw [roundHalfEven, rheDivNat]
  by_cases h1 : 2 * (a % b) < b
  · rw [if_neg (fun h => by rw [htie] at h; omega), if_pos h1, hround]
    have hdiv : (2 * a + b) / (2 * b) = a / b := by
      have hz : (2 * (a % b) + b) / (2 * b) = 0 := Nat.div_eq_of_lt (by omega)
      rw [hsplit2, ← mul_assoc 2 b (a / b), Nat.mul_add_div (by omega), hz]
      omega
    exact_mod_cast hdiv
  · by_cases h2 : b < 2 * (a % b)
    · rw [if_neg (fun h => by rw [htie] at h; omega), if_neg (by omega), if_pos h2, hround]
      have hdiv : (2 * a + b) / (2 * b) = a / b + 1 := by
        rw [hsplit2, ← mul_assoc 2 b (a / b), Nat.mul_add_div (by omega)]
        have hone : (2 * (a % b) + b) / (2 * b) = 1 := by
          apply Nat.div_eq_of_lt_le <;> omega
        omega
      exact_mod_cast hdiv
    · have htie' : 2 * (a % b) = b := by omega
      rw [if_pos (htie.mpr htie'), hfloor]
      have heven : Even ((a / b : ℕ) : ℤ) ↔ a / b % 2 = 0 := by
        rw [Int.even_coe_nat, Nat.even_iff]
      by_cases h3 : a / b % 2 = 0
      · rw [if_pos (heven.mpr h3), if_neg (by omega), if_neg (by omega), if_pos h3]
      · rw [if_neg (fun h => h3 (heven.mp h)), if_neg (by omega), if_neg (by omega),
          if_neg h3]
        push_cast; ring

/-- The source's score, rewritten through `rheDivNat` so that concrete values
compute and monotonicity can be argued over ℕ. -/
theorem calculate_match_score_eq_rheDiv (c j : List String) :
    calculate_match_score c j =
      if j = [] ∨ c = [] ∨ pyNormList j = [] then 0
      else
        (rheDivNat (10000 * ((pyNormList c).toFinset ∩ (pyNormList j).toFinset).card)
          (pyNormList j).length : ℚ) / 100 := by
  rw [calculate_match_score]
  by_cases hj : j = []
  · simp [hj]
  by_cases hc : c = []
  · simp [hj, hc]
  by_cases hjl : pyNormList j = []
  · simp [hj, hc, hjl]
  · have hL : 0 < (pyNormList j).length := List.length_pos.mpr hjl
    simp only [hj, hc, hjl, if_false, or_self, if_neg, or_false, false_or]
    rw [round2]
    have harg : ((((pyNormList c).toFinset ∩ (pyNormList j).toFinset).card : ℚ)
        / ((pyNormList j).length : ℚ) * 100) * 100
        = ((10000 * ((pyNormList c).toFinset ∩ (pyNormList j).toFinset).card : ℕ) : ℚ)
          / ((pyNormList j).length : ℚ) := by
      have hL0 : ((pyNormList j).length : ℚ) ≠ 0 := Nat.cast_ne_zero.mpr hL.ne'
      push_cast
      field_simp
      ring
    rw [harg, roundHalfEven_natCast_div _ _ hL]
    push_cast
    rfl

theorem round2_zero : round2 0 = 0 := by
  rw [round2, zero_mul, roundHalfEven]
  rw [if_neg (by rw [Int.fract_zero]; norm_num)]
  norm_num

theorem round2_natCast_mul_div (m L : ℕ) (hL : 0 < L) :
    round2 ((m : ℚ) / (L : ℚ) * 100) = (rheDivNat (10000 * m) L : ℚ) / 100 := by
  rw [round2]
  have hL0 : (L : ℚ) ≠ 0 := Nat.cast_ne_zero.mpr hL.ne'
  have harg : ((m : ℚ) / (L : ℚ) * 100) * 100
      = ((10000 * m : ℕ) : ℚ) / ((L : ℕ) : ℚ) := by
    push_cast; field_simp; ring
  rw [harg, roundHalfEven_natCast_div _ _ hL]
  push_cast; rfl

theorem scoreClaimSpec_eq_rheDiv (c j : List String) :
    scoreClaimSpec c j =
      if (pyNormList j).toFinset = ∅ ∨ (pyNormList c).toFinset = ∅ then 0
      else
        (rheDivNat (10000 * ((pyNormList c).toFinset ∩ (pyNormList j).toFinset).card)
          (pyNormList j).toFinset.card : ℚ) / 100 := by
  simp only [scoreClaimSpec]
  by_cases h : (pyNormList j).toFinset = ∅ ∨ (pyNormList c).toFinset = ∅
  · rw [if_pos h, if_pos h]
  · have h' := h
    push_neg at h'
    rw [if_neg h, if_neg h]
    have hcard : 0 < (pyNormList j).toFinset.card :=
      Finset.card_pos.mpr (Finset.nonempty_iff_ne_empty.mpr h'.1)
    exact round2_natCast_mul_div _ _ hcard

theorem roundHalfEven_le_add_half (q : ℚ) : (roundHalfEven q : ℚ) ≤ q + 1 / 2 := by
  rw [roundHalfEven]
  by_cases h : Int.fract q = 1 / 2
  · rw [Int.fract] at h
    rw [if_pos (by rw [Int.fract]; exact h)]
    by_cases he : Even ⌊q⌋
    · rw [if_pos he]; linarith
    · rw [if_neg he]; push_cast; linarith
  · rw [if_neg h]
    have h2 := abs_le.mp (abs_sub_round q)
    linarith [h2.1, h2.2]

theorem sub_half_le_roundHalfEven (q : ℚ) : q - 1 / 2 ≤ (roundHalfEven q : ℚ) := by
  rw [roundHalfEven]
  by_cases h : Int.fract q = 1 / 2
  · rw [Int.fract] at h
    rw [if_pos (by rw [Int.fract]; exact h)]
    by_cases he : Even ⌊q⌋
    · rw [if_pos he]; linarith
    · rw [if_neg he]; push_cast; linarith
  · rw [if_neg h]
    have h2 := abs_le.mp (abs_sub_round q)
    linarith [h2.1, h2.2]

theorem roundHalfEven_mono {x y : ℚ} (hxy : x ≤ y) :
    roundHalfEven x ≤ roundHalfEven y := by
  by_contra hlt
  push_neg at hlt
  have h1 : (roundHalfEven y : ℚ) + 1 ≤ (roundHalfEven x : ℚ) := by
    exact_mod_cast Int.add_one_le_iff.mpr hlt
  have h2 := roundHalfEven_le_add_half x
  have h3 := sub_half_le_roundHalfEven y
  have heq : x = y := le_antisymm hxy (by linarith)
  subst heq
  exact lt_irrefl _ hlt

theorem rheDivNat_mono {a a' : ℕ} (b : ℕ) (hb : 0 < b) (h : a ≤ a') :
    rheDivNat a b ≤ rheDivNat a' b := by
  have hbq : (0 : ℚ) < b := by exact_mod_cast hb
  have hd : (a : ℚ) / b ≤ (a' : ℚ) / b := by
    gcongr
  have hm := roundHalfEven_mono hd
  rw [roundHalfEven_natCast_div a b hb, roundHalfEven_natCast_div a' b hb] at hm
  exact_mod_cast hm

theorem pyNormList_append (l1 l2 : List String) :
    pyNormList (l1 ++ l2) = pyNormList l1 ++ pyNormList l2 := by
  simp [pyNormList, List.filter_append, List.map_append]

theorem calculate_match_score_nonneg (c j : List String) :
    0 ≤ calculate_match_score c j := by
  rw [calculate_match_score_eq_rheDiv]
  split
  · norm_num
  · positivity

/- ### Claim theorems: the scorer -/

/-- **C10.** `calculate_match_score` is monotone in the candidate's skills:
for every candidate list, every job list and every additional skill `s`,
the score of `candidate ++ [s]` against the job is at least the score of
`candidate`. -/
theorem calculate_match_score_monotone (c j : List String) (s : String) :
    calculate_match_score c j ≤ calculate_match_score (c ++ [s]) j := by
  by_cases hj : j = []
  · rw [calculate_match_score_eq_rheDiv, calculate_match_score_eq_rheDiv]
    simp [hj]
  by_cases hjl : pyNormList j = []
  · rw [calculate_match_score_eq_rheDiv, calculate_match_score_eq_rheDiv]
    simp [hj, hjl]
  by_cases hc : c = []
  · have h0 : calculate_match_score c j = 0 := by
      rw [calculate_match_score_eq_rheDiv, if_pos (Or.inr (Or.inl hc))]
    rw [h0]
    exact calculate_match_score_nonneg _ _
  · rw [calculate_match_score_eq_rheDiv, calculate_match_score_eq_rheDiv,
      if_neg (by simp [hj, hjl, hc]), if_neg (by simp [hj, hjl])]
    have hL : 0 < (pyNormList j).length := List.length_pos.mpr hjl
    have hsub : (pyNormList c).toFinset ⊆ (pyNormList (c ++ [s])).toFinset := by
      rw [pyNormList_append]
      intro x hx
      rw [List.toFinset_append]
      exact Finset.mem_union_left _ hx
    have hcard : ((pyNormList c).toFinset ∩ (pyNormList j).toFinset).card
        ≤ ((pyNormList (c ++ [s])).toFinset ∩ (pyNormList j).toFinset).card :=
      Finset.card_le_card (Finset.inter_subset_inter hsub (Finset.Subset.refl _))
    gcongr
    exact_mod_cast rheDivNat_mono _ hL (Nat.mul_le_mul_left 10000 hcard)

/-- **C2 counterexample.** The claim computes the score with the normalized
job *set* cardinality as denominator.  The source divides by the length of
the normalized job *list*: with candidate `["python"]` and job
`["python", "python"]` the code returns `50`, while the claimed formula
gives `100`. -/
theorem score_list_denominator_counterexample :
    calculate_match_score ["python"] ["python", "python"] = 50 ∧
    scoreClaimSpec ["python"] ["python", "python"] = 100 ∧
    ¬ calculate_match_score ["python"] ["python", "python"]
        = scoreClaimSpec ["python"] ["python", "python"] := by
  have h1 : calculate_match_score ["python"] ["python", "python"] = 50 := by
    rw [calculate_match_score_eq_rheDiv, if_neg (by decide)]
    rw [show rheDivNat (10000 * (((pyNormList ["python"]).toFinset
        ∩ (pyNormList ["python", "python"]).toFinset).card))
        (pyNormList ["python", "python"]).length = 5000 from by decide]
    norm_num
  have h2 : scoreClaimSpec ["python"] ["python", "python"] = 100 := by
    rw [scoreClaimSpec_eq_rheDiv, if_neg (by decide)]
    rw [show rheDivNat (10000 * (((pyNormList ["python"]).toFinset
        ∩ (pyNormList ["python", "python"]).toFinset).card))
        (pyNormList ["python", "python"]).toFinset.card = 10000 from by decide]
    norm_num
  exact ⟨h1, h2, by rw [h1, h2]; norm_num⟩

/-- **C2 (amended).** `calculate_match_score` normalizes both inputs
(lowercase, trim, drop empties), returns exactly `0` when either normalized
skill collection is empty, and otherwise returns
`|set(candidate) ∩ set(job)| / len(normalized job list) * 100` — the
denominator counting job-list duplicates — rounded half-to-even to two
decimals; the claim's two boundary examples hold. -/
theorem score_matches_amended_spec :
    (∀ c j, calculate_match_score c j = scoreAmendedSpec c j) ∧
    calculate_match_score ["python", "go"] ["python"] = 100 ∧
    calculate_match_score ["python"] ["python", "go"] = 50 ∧
    calculate_match_score [] ["python"] = 0 ∧
    calculate_match_score ["python"] [] = 0 := by
  refine ⟨fun c j => ?_, ?_, ?_, ?_, ?_⟩
  · rw [calculate_match_score]
    simp only [scoreAmendedSpec]
    by_cases hj : j = []
    · simp [hj, pyNormList]
    by_cases hjl : pyNormList j = []
    · simp [hj, hjl]
    have hjset : ¬(pyNormList j).toFinset = ∅ := by
      simpa [List.toFinset_eq_empty_iff] using hjl
    by_cases hc : c = []
    · have hcl : pyNormList c = [] := by simp [hc, pyNormList]
      simp [hj, hc, hjl, hcl, pyNormList]
    by_cases hcl : pyNormList c = []
    · simp [hj, hc, hjl, hcl, round2_zero, hjset]
    · have hcset : ¬(pyNormList c).toFinset = ∅ := by
        simpa [List.toFinset_eq_empty_iff] using hcl
      simp [hj, hc, hjl, hjset, hcset]
  · rw [calculate_match_score_eq_rheDiv, if_neg (by decide)]
    rw [show rheDivNat (10000 * (((pyNormList ["python", "go"]).toFinset
        ∩ (pyNormList ["python"]).toFinset).card))
        (pyNormList ["python"]).length = 10000 from by decide]
    norm_num
  · rw [calculate_match_score_eq_rheDiv, if_neg (by decide)]
    rw [show rheDivNat (10000 * (((pyNormList ["python"]).toFinset
        ∩ (pyNormList ["python", "go"]).toFinset).card))
        (pyNormList ["python", "go"]).length = 5000 from by decide]
    norm_num
  · rw [calculate_match_score_eq_rheDiv, if_pos (by decide)]
  · rw [calculate_match_score_eq_rheDiv, if_pos (by decide)]

/- ### Claim theorems: the extractor -/

/-- **C1 (code bug).** The claim says `extract_skills_from_text` returns a
value without raising for every string.  It does not: because the
`tech_keywords`/`found_skills`/`text_lower` assignments are indented into
the early-return branch, every non-blank input raises `NameError` on
`text_lower` at main.py line 230.  Evaluation at the failing input
`"python"`.  (`calculate_match_score`, embedded above as a total function,
indeed raises no exception.) -/
theorem extract_raises_on_nonblank_input :
    extract_skills_from_text "python" = Except.error (PyError.nameError "text_lower") := by
  rfl

/-- **C3 (code bug).** The word-boundary examples of the claim hold of the
keyword scan (main.py lines 223-272) — which is dead code: the reachable
`extract_skills_from_text` raises `NameError` on `"javascript"` instead of
returning a set. -/
theorem word_boundary_matching_dead_code :
    extract_skills_from_text "javascript"
      = Except.error (PyError.nameError "text_lower") ∧
    "javascript" ∈ extract_skills_scan "javascript" ∧
    "java" ∉ extract_skills_scan "javascript" ∧
    "c++" ∈ extract_skills_scan "I use c++ daily" ∧
    "c++" ∉ extract_skills_scan "abc++x" := by
  exact ⟨rfl, by decide, by decide, by decide, by decide⟩

/-- **C4 (code bug).** The synonym-folding examples of the claim hold of the
keyword scan (main.py lines 241-272) — which is dead code: the reachable
`extract_skills_from_text` raises `NameError` on `"nodejs"` instead of
returning a set. -/
theorem synonym_folding_dead_code :
    extract_skills_from_text "nodejs"
      = Except.error (PyError.nameError "text_lower") ∧
    extract_skills_scan "nodejs" = ["node.js"] ∧
    extract_skills_scan "node.js" = ["node.js"] ∧
    "go" ∈ extract_skills_scan "golang developer" ∧
    "c++" ∈ extract_skills_scan "cpp" ∧
    "c++" ∈ extract_skills_scan "cplusplus" ∧
    "c#" ∈ extract_skills_scan "csharp" ∧
    "next.js" ∈ extract_skills_scan "nextjs" ∧
    "nest.js" ∈ extract_skills_scan "nestjs" ∧
    "vue" ∈ extract_skills_scan "vue.js" ∧
    "postgresql" ∈ extract_skills_scan "postgres" ∧
    "scikit-learn" ∈ extract_skills_scan "scikit learn" := by
  refine ⟨rfl, by decide, by decide, by decide, by decide, by decide, by decide,
    by decide, by decide, by decide, by decide, by decide⟩

theorem pyStripList_eq_nil (l : List Char) (h : ∀ c ∈ l, isPySpace c) :
    pyStripList l = [] := by
  rw [pyStripList]
  have h1 : l.dropWhile isPySpace = [] := List.dropWhile_eq_nil_iff.mpr h
  simp [h1]

/-- **C6.** For every empty or whitespace-only input string,
`extract_skills_from_text` returns the empty set without error: such input
satisfies `not text or not text.strip()` and takes the `return []` branch. -/
theorem extract_blank_returns_empty (text : String)
    (h : ∀ c ∈ text.data, isPySpace c) :
    extract_skills_from_text text = Except.ok [] := by
  have hcond : text = "" ∨ pyStrip text = "" :=
    Or.inr (by rw [pyStrip, pyStripList_eq_nil _ h])
  rw [extract_skills_from_text, if_pos hcond]

/-- Witness for C6 at the whitespace-only input `" \t  "`. -/
theorem extract_blank_returns_empty_witness :
    (∀ c ∈ (" \t  " : String).data, isPySpace c) ∧
    extract_skills_from_text " \t  " = Except.ok [] :=
  ⟨by decide, extract_blank_returns_empty " \t  " (by decide)⟩

/- ### Claim theorems: the match report -/

theorem strLeB_trans : ∀ (a b c : String), strLeB a b → strLeB b c → strLeB a c := by
  intro a b c h1 h2
  simp only [strLeB, decide_eq_true_eq] at h1 h2 ⊢
  exact le_trans h1 h2

theorem strLeB_total : ∀ (a b : String), strLeB a b || strLeB b a := by
  intro a b
  simp only [strLeB, Bool.or_eq_true, decide_eq_true_eq]
  exact le_total a b

theorem sortStrings_pairwise (l : List String) :
    (sortStrings l).Pairwise (fun a b => a ≤ b) := by
  have h := List.sorted_mergeSort strLeB_trans strLeB_total l
  exact h.imp (fun hab => by simpa [strLeB] using hab)

theorem sortStrings_mem (l : List String) (s : String) :
    s ∈ sortStrings l ↔ s ∈ l :=
  (List.mergeSort_perm l strLeB).mem_iff

theorem sortStrings_nodup {l : List String} (h : l.Nodup) : (sortStrings l).Nodup :=
  ((List.mergeSort_perm l strLeB).nodup_iff).mpr h

/-- **C9.** `matching_skills` is the lexicographically sorted, duplicate-free
intersection of the normalized candidate and job skill sets, and
`missing_skills` the sorted, duplicate-free difference job-minus-candidate;
consequently `missing_skills` never contains a normalized candidate skill,
`matching_skills` is a subset of both normalized input sets, and candidate
skills beyond the job's requirements are never reported missing. -/
theorem match_report_skills_spec (c j : List String) :
    ((matching_skills c j).Pairwise (fun a b => a ≤ b) ∧
      (matching_skills c j).Nodup ∧
      (∀ s, s ∈ matching_skills c j ↔ s ∈ pyNormList c ∧ s ∈ pyNormList j)) ∧
    ((missing_skills c j).Pairwise (fun a b => a ≤ b) ∧
      (missing_skills c j).Nodup ∧
      (∀ s, s ∈ missing_skills c j ↔ s ∈ pyNormList j ∧ s ∉ pyNormList c)) ∧
    (∀ s ∈ missing_skills c j, s ∉ pyNormList c) ∧
    (∀ s ∈ matching_skills c j, s ∈ pyNormList c ∧ s ∈ pyNormList j) := by
  have hmem1 : ∀ s, s ∈ matching_skills c j ↔ s ∈ pyNormList c ∧ s ∈ pyNormList j := by
    intro s
    rw [matching_skills, sortStrings_mem, List.mem_dedup, List.mem_filter]
    simp [List.elem_iff, List.contains]
  have hmem2 : ∀ s, s ∈ missing_skills c j ↔ s ∈ pyNormList j ∧ s ∉ pyNormList c := by
    intro s
    rw [missing_skills, sortStrings_mem, List.mem_dedup, List.mem_filter]
    simp [List.elem_iff, List.contains]
  exact ⟨⟨sortStrings_pairwise _, sortStrings_nodup (List.nodup_dedup _), hmem1⟩,
    ⟨sortStrings_pairwise _, sortStrings_nodup (List.nodup_dedup _), hmem2⟩,
    fun s hs => ((hmem2 s).mp hs).2,
    fun s hs => (hmem1 s).mp hs⟩

/- ### Claim theorems: the aggregator -/

theorem counterLookup_counterAdd_self (stats : List (String × ℚ)) (k : String) (w : ℚ) :
    counterLookup (counterAdd stats k w) k = counterLookup stats k + w := by
  induction stats with
  | nil => simp [counterAdd, counterLookup, List.lookup]
  | cons p rest ih =>
    obtain ⟨l, v⟩ := p
    by_cases h : l = k
    · subst h
      simp [counterAdd, counterLookup, List.lookup]
    · have hb : (k == l) = false := beq_eq_false_iff_ne.mpr (fun he => h he.symm)
      simpa [counterAdd, h, counterLookup, List.lookup, hb] using ih

theorem counterLookup_counterAdd_other (stats : List (String × ℚ)) (k : String) (w : ℚ)
    (k' : String) (h : k' ≠ k) :
    counterLookup (counterAdd stats k w) k' = counterLookup stats k' := by
  induction stats with
  | nil =>
    have hb : (k' == k) = false := beq_eq_false_iff_ne.mpr h
    simp [counterAdd, counterLookup, List.lookup, hb]
  | cons p rest ih =>
    obtain ⟨l, v⟩ := p
    by_cases hl : l = k
    · subst hl
      have hb : (k' == l) = false := beq_eq_false_iff_ne.mpr h
      simp [counterAdd, counterLookup, List.lookup, hb]
    · by_cases hl' : k' = l
      · subst hl'
        simp [counterAdd, hl, counterLookup, List.lookup]
      · have hb : (k' == l) = false := beq_eq_false_iff_ne.mpr hl'
        simpa [counterAdd, hl, counterLookup, List.lookup, hb] using ih

theorem counterLookup_foldl_notmem (f : String × ℕ → ℚ) (langs : List (String × ℕ)) :
    ∀ (stats : List (String × ℚ)) (l : String), l ∉ langs.map Prod.fst →
      counterLookup (langs.foldl (fun st p => counterAdd st p.1 (f p)) stats) l
        = counterLookup stats l := by
  induction langs with
  | nil => intro stats l _; rfl
  | cons p rest ih =>
    intro stats l h
    rw [List.foldl_cons, ih]
    · exact counterLookup_counterAdd_other _ _ _ _ (fun heq => h (by simp [heq]))
    · intro hmem
      exact h (by simp [hmem])

theorem counterLookup_foldl_counterAdd (f : String × ℕ → ℚ) (langs : List (String × ℕ)) :
    ∀ (stats : List (String × ℚ)) (l : String) (b : ℕ),
      (langs.map Prod.fst).Nodup → (l, b) ∈ langs →
      counterLookup (langs.foldl (fun st p => counterAdd st p.1 (f p)) stats) l
        = counterLookup stats l + f (l, b) := by
  induction langs with
  | nil => intro stats l b _ hmem; cases hmem
  | cons p rest ih =>
    intro stats l b hnodup hmem
    obtain ⟨k, w⟩ := p
    rw [List.map_cons, List.nodup_cons] at hnodup
    rw [List.foldl_cons]
    rcases List.mem_cons.mp hmem with heq | hmem'
    · cases heq
      rw [counterLookup_foldl_notmem f rest _ l hnodup.1,
        counterLookup_counterAdd_self]
    · have hk : k ≠ l := by
        intro hkl
        subst hkl
        exact hnodup.1 (by simpa using List.mem_map_of_mem Prod.fst hmem')
      rw [ih _ l b hnodup.2 hmem',
        counterLookup_counterAdd_other _ _ _ _ (Ne.symm hk)]

/-- **C7.** For each repository language entry `(l, b)` with the repository
reporting positive total bytes, the aggregator accumulates the fractional
share `b / total`; if the repository reports zero total bytes it accumulates
the raw byte count `b` — no division by zero occurs. -/
theorem addRepoLanguages_weight (repo_languages : List (String × ℕ)) (l : String) (b : ℕ)
    (hkeys : (repo_languages.map Prod.fst).Nodup) (hmem : (l, b) ∈ repo_languages) :
    counterLookup (addRepoLanguages [] repo_languages) l =
      if 0 < totalBytes repo_languages then
        (b : ℚ) / (totalBytes repo_languages : ℚ)
      else (b : ℚ) := by
  rw [addRepoLanguages, counterLookup_foldl_counterAdd _ repo_languages [] l b hkeys hmem]
  simp [counterLookup]

/-- Witness for C7 at the two-language repository
`{"python": 30, "c": 10}`. -/
theorem addRepoLanguages_weight_witness :
    (((([("python", 30), ("c", 10)] : List (String × ℕ)).map Prod.fst).Nodup) ∧
      ("python", 30) ∈ ([("python", 30), ("c", 10)] : List (String × ℕ))) ∧
    counterLookup (addRepoLanguages [] [("python", 30), ("c", 10)]) "python" =
      if 0 < totalBytes [("python", 30), ("c", 10)] then
        ((30 : ℕ) : ℚ) / (totalBytes [("python", 30), ("c", 10)] : ℚ)
      else ((30 : ℕ) : ℚ) :=
  ⟨⟨by decide, by decide⟩, addRepoLanguages_weight _ _ _ (by decide) (by decide)⟩

theorem analyzeStep_raises (fetch : Repo → FetchOutcome) (st : AggState) (r : Repo)
    (h : Repo.fetchRaises fetch r) :
    analyzeStep fetch st r = st := by
  rw [Repo.fetchRaises, Bool.and_eq_true] at h
  have hfr : fetch r = FetchOutcome.failure := by
    have := h.2
    rwa [beq_iff_eq] at this
  rw [analyzeStep, if_pos h.1, hfr]

theorem foldl_analyzeStep_filter (fetch : Repo → FetchOutcome) (repos : List Repo) :
    ∀ st : AggState,
      repos.foldl (analyzeStep fetch) st
        = (repos.filter (fun r => !(Repo.fetchRaises fetch r))).foldl
            (analyzeStep fetch) st := by
  induction repos with
  | nil => intro st; rfl
  | cons r rest ih =>
    intro st
    by_cases h : Repo.fetchRaises fetch r
    · rw [List.foldl_cons, analyzeStep_raises fetch st r h,
        List.filter_cons, if_neg (by simp [h])]
      exact ih st
    · rw [List.foldl_cons, List.filter_cons, if_pos (by simp [h]), List.foldl_cons]
      exact ih _

/-- **C5 counterexample.** With three repositories of 1, 5 and 2 stars whose
middle fetch raises, `repo_count` is still `3`, but `total_stars` is `3`,
not the claimed sum `1 + 5 + 2` over *all* repositories: the `continue` in
the `except` branch also skips the stars/forks/size accumulation. -/
theorem aggregator_drops_stats_of_failing_repo :
    (analyze_repo_languages exFetch [exRepoA, exRepoB, exRepoC]).repo_count = 3 ∧
    (analyze_repo_languages exFetch [exRepoA, exRepoB, exRepoC]).total_stars = 3 ∧
    ¬(analyze_repo_languages exFetch [exRepoA, exRepoB, exRepoC]).total_stars
        = 1 + 5 + 2 := by
  exact ⟨by decide, by decide, by decide⟩

/-- **C5 (amended).** When a repository's language fetch raises, the
aggregator skips that repository *entirely* — its language contribution and
its stars/forks/size contribution — and continues with the remaining
repositories; `repo_count` alone still counts every input repository.
Formally, the result equals the result for the non-raising repositories with
`repo_count` overridden by the full input length. -/
theorem aggregator_skips_failing_repo_entirely (fetch : Repo → FetchOutcome)
    (repos : List Repo) :
    (analyze_repo_languages fetch repos).repo_count = repos.length ∧
    analyze_repo_languages fetch repos =
      { analyze_repo_languages fetch
          (repos.filter (fun r => !(Repo.fetchRaises fetch r))) with
        repo_count := repos.length } := by
  constructor
  · rfl
  · simp only [analyze_repo_languages]
    rw [foldl_analyzeStep_filter]

theorem insertWeightDesc_perm (p : String × ℚ) (l : List (String × ℚ)) :
    List.Perm (insertWeightDesc p l) (p :: l) := by
  induction l with
  | nil => exact List.Perm.refl _
  | cons q rest ih =>
    simp only [insertWeightDesc]
    by_cases h : q.2 ≤ p.2
    · rw [if_pos h]
    · rw [if_neg h]
      exact (ih.cons q).trans (List.Perm.swap p q rest)

theorem insertWeightDesc_pairwise (p : String × ℚ) (l : List (String × ℚ))
    (h : l.Pairwise (fun a b => b.2 ≤ a.2)) :
    (insertWeightDesc p l).Pairwise (fun a b => b.2 ≤ a.2) := by
  induction l with
  | nil => simp [insertWeightDesc]
  | cons q rest ih =>
    simp only [insertWeightDesc]
    rcases List.pairwise_cons.mp h with ⟨hq, hrest⟩
    by_cases hle : q.2 ≤ p.2
    · rw [if_pos hle]
      refine List.Pairwise.cons ?_ h
      intro x hx
      rcases List.mem_cons.mp hx with rfl | hx'
      · exact hle
      · exact le_trans (hq x hx') hle
    · rw [if_neg hle]
      refine List.Pairwise.cons ?_ (ih hrest)
      intro x hx
      have hx' := (insertWeightDesc_perm p rest).mem_iff.mp hx
      rcases List.mem_cons.mp hx' with rfl | hx''
      · exact le_of_not_le hle
      · exact hq x hx''

theorem sortWeightDesc_perm (l : List (String × ℚ)) :
    List.Perm (sortWeightDesc l) l := by
  induction l with
  | nil => exact List.Perm.refl _
  | cons p rest ih =>
    simp only [sortWeightDesc]
    exact (insertWeightDesc_perm p _).trans (ih.cons p)

theorem sortWeightDesc_pairwise (l : List (String × ℚ)) :
    (sortWeightDesc l).Pairwise (fun a b => b.2 ≤ a.2) := by
  induction l with
  | nil => simp [sortWeightDesc]
  | cons p rest ih =>
    simp only [sortWeightDesc]
    exact insertWeightDesc_pairwise p _ ih

theorem filter_insertWeightDesc (w : ℚ) (p : String × ℚ) (l : List (String × ℚ)) :
    (insertWeightDesc p l).filter (fun q => q.2 = w)
      = if p.2 = w then p :: l.filter (fun q => q.2 = w)
        else l.filter (fun q => q.2 = w) := by
  induction l with
  | nil =>
    by_cases hw : p.2 = w
    · simp [insertWeightDesc, hw]
    · simp [insertWeightDesc, hw]
  | cons q rest ih =>
    simp only [insertWeightDesc]
    by_cases hle : q.2 ≤ p.2
    · rw [if_pos hle]
      by_cases hw : p.2 = w
      · simp [List.filter_cons, hw]
      · simp [List.filter_cons, hw]
    · rw [if_neg hle]
      by_cases hqw : q.2 = w
      · have hpw : ¬p.2 = w := fun hp => hle (by rw [hqw, hp])
        simp [List.filter_cons, hqw, hpw, ih]
      · by_cases hpw : p.2 = w
        · simp [List.filter_cons, hqw, hpw, ih]
        · simp [List.filter_cons, hqw, hpw, ih]

theorem filter_sortWeightDesc (w : ℚ) (l : List (String × ℚ)) :
    (sortWeightDesc l).filter (fun q => q.2 = w) = l.filter (fun q => q.2 = w) := by
  induction l with
  | nil => rfl
  | cons p rest ih =>
    simp only [sortWeightDesc]
    rw [filter_insertWeightDesc]
    by_cases hw : p.2 = w
    · rw [if_pos hw, ih, List.filter_cons, if_pos (by simpa using hw)]
    · rw [if_neg hw, ih, List.filter_cons, if_neg (by simpa using hw)]

/-- **C8.** The returned language profile has at most 10 entries, in
descending accumulated-weight order with ties kept in first-encounter order
(the profile's equal-weight entries form a prefix of the accumulated
counter's equal-weight entries), every entry comes from the accumulated
counter, any counter entry left out weighs no more than every retained
entry, and `top_language` is the head's name (or none when the profile is
empty) and weighs at least every entry; feeding one repository with 15
distinct languages of strictly decreasing byte counts yields exactly the 10
highest-weighted entries. -/
theorem top10_truncation (fetch : Repo → FetchOutcome) (repos : List Repo) :
    ((analyze_repo_languages fetch repos).languages.length ≤ 10) ∧
    ((analyze_repo_languages fetch repos).languages.Pairwise (fun a b => b.2 ≤ a.2)) ∧
    (∀ p ∈ (analyze_repo_languages fetch repos).languages,
      p ∈ analyzeStats fetch repos) ∧
    (∀ p ∈ analyzeStats fetch repos,
      p ∈ (analyze_repo_languages fetch repos).languages ∨
        ∀ q ∈ (analyze_repo_languages fetch repos).languages, p.2 ≤ q.2) ∧
    (∀ w : ℚ,
      ((analyze_repo_languages fetch repos).languages.filter (fun q => q.2 = w)) <+:
        ((analyzeStats fetch repos).filter (fun q => q.2 = w))) ∧
    ((analyze_repo_languages fetch repos).languages = [] →
      (analyze_repo_languages fetch repos).top_language = none) ∧
    (∀ p, (analyze_repo_languages fetch repos).languages.head? = some p →
      (analyze_repo_languages fetch repos).top_language = some p.1 ∧
        ∀ q ∈ (analyze_repo_languages fetch repos).languages, q.2 ≤ p.2) ∧
    ((analyze_repo_languages exFetch15 [exRepo15]).languages =
      [("l01", (15 : ℚ) / 120), ("l02", (14 : ℚ) / 120), ("l03", (13 : ℚ) / 120),
       ("l04", (12 : ℚ) / 120), ("l05", (11 : ℚ) / 120), ("l06", (10 : ℚ) / 120),
       ("l07", (9 : ℚ) / 120), ("l08", (8 : ℚ) / 120), ("l09", (7 : ℚ) / 120),
       ("l10", (6 : ℚ) / 120)]) := by
  have hL : (analyze_repo_languages fetch repos).languages
      = (sortWeightDesc (analyzeStats fetch repos)).take 10 := rfl
  have htop : (analyze_repo_languages fetch repos).top_language
      = ((analyze_repo_languages fetch repos).languages.head?).map (fun p => p.1) := rfl
  have hsorted := sortWeightDesc_pairwise (analyzeStats fetch repos)
  have hperm := sortWeightDesc_perm (analyzeStats fetch repos)
  have hpair : ((analyze_repo_languages fetch repos).languages).Pairwise
      (fun a b => b.2 ≤ a.2) := by
    rw [hL]
    exact hsorted.sublist (List.take_sublist 10 _)
  refine ⟨?_, hpair, ?_, ?_, ?_, ?_, ?_, ?_⟩
  · rw [hL]
    exact List.length_take_le 10 _
  · intro p hp
    rw [hL] at hp
    exact hperm.mem_iff.mp (List.take_subset _ _ hp)
  · intro p hp
    have hp' : p ∈ sortWeightDesc (analyzeStats fetch repos) := hperm.mem_iff.mpr hp
    rw [← List.take_append_drop 10 (sortWeightDesc (analyzeStats fetch repos))] at hp'
    rcases List.mem_append.mp hp' with h1 | h1
    · exact Or.inl (by rw [hL]; exact h1)
    · right
      intro q hq
      rw [hL] at hq
      have hsp := hsorted
      rw [← List.take_append_drop 10 (sortWeightDesc (analyzeStats fetch repos))] at hsp
      rcases List.pairwise_append.mp hsp with ⟨_, _, hcross⟩
      exact hcross q hq p h1
  · intro w
    rw [hL]
    rcases List.take_prefix 10 (sortWeightDesc (analyzeStats fetch repos)) with ⟨t, ht⟩
    refine ⟨t.filter (fun q => q.2 = w), ?_⟩
    rw [← List.filter_append, ht, filter_sortWeightDesc]
  · intro h
    rw [htop, h]
    rfl
  · intro p hp
    constructor
    · rw [htop, hp]
      rfl
    · intro q hq
      cases hcase : (analyze_repo_languages fetch repos).languages with
      | nil =>
        rw [hcase] at hp
        simp at hp
      | cons a t =>
        rw [hcase] at hp hq
        have hpair' := hpair
        rw [hcase] at hpair'
        have hap : a = p := by simpa using hp
        subst hap
        rcases List.pairwise_cons.mp hpair' with ⟨ha, _⟩
        rcases List.mem_cons.mp hq with rfl | hq'
        · exact le_refl _
        · exact ha q hq'
  · norm_num [analyze_repo_languages, analyzeStep,
      show exFetch15 exRepo15 = FetchOutcome.success 200 exLangs15 from rfl,
      show Repo.urlTruthy exRepo15 = true from rfl,
      exLangs15, addRepoLanguages, totalBytes,
      counterAdd, most_common10, sortWeightDesc, insertWeightDesc]
